import Mathlib

/-!
# Verification of `deployment/env-validator.py`

A shallow embedding of the MXCP deployment-template environment-variable
consistency validator (`EnvValidator`), together with theorems settling the
frozen claims about it.

Modelling conventions:
* Python strings are Lean `String`s; character-level work happens on
  `List Char` (ASCII fragment, which covers all inputs the validator sees).
* The mutable `self.errors` / `self.warnings` lists are threaded explicitly
  as a `VState` record.
* `json.loads` is abstracted as an arbitrary fallible parse function
  `json_loads : String -> Option J`; no claim depends on the JSON grammar
  itself, only on how parse failure is handled.
* The yaml env-block lookup of `extract_workflow_env` is abstracted as the
  list of keys of the resulting env mapping, which is all `validate` ever uses.
* File reads are abstracted: each extraction function receives the text
  (or structured content) of the file it would open.
* Braces inside string and char literals are written with the escapes
  `\x7b` (left brace) and `\x7d` (right brace); a single quote is `\x27`
  and a double quote inside a literal is `\x22`.
-/

/-- Python `str.isspace` characters relevant to `str.strip()` (ASCII). -/
def pyIsSpace (c : Char) : Bool :=
  c = ' ' || c = '\t' || c = '\n' || c = '\r' || c = '\x0b' || c = '\x0c'

/-- A Python regex `\w` word character (ASCII fragment). -/
def pyIsWordChar (c : Char) : Bool :=
  c.isAlphanum || c = '_'

/-- Python `str.strip()` on a character list: drop whitespace from both ends. -/
def pyStripL (cs : List Char) : List Char :=
  ((cs.dropWhile pyIsSpace).reverse.dropWhile pyIsSpace).reverse

/-- Python `str.strip()`. -/
def pyStrip (s : String) : String :=
  String.mk (pyStripL s.toList)

/-- Python str.strip of a single character `c`: drop every leading and
trailing occurrence of `c` (not just one layer). -/
def pyStripCharL (c : Char) (cs : List Char) : List Char :=
  ((cs.dropWhile (fun x => x = c)).reverse.dropWhile (fun x => x = c)).reverse

/-- Python str.strip with a double-quote argument, as used on config.env values. -/
def pyStripQuotes (s : String) : String :=
  String.mk (pyStripCharL '\x22' s.toList)

/-- Test whether `pat` is a prefix of `s` (character lists). -/
def startsWithL : List Char → List Char → Bool
  | _, [] => true
  | [], _ :: _ => false
  | c :: cs, p :: ps => c = p && startsWithL cs ps

/-- Python `pat in s` substring containment (character lists). -/
def containsL (s pat : List Char) : Bool :=
  startsWithL s pat ||
    match s with
    | [] => false
    | _ :: cs => containsL cs pat

/-- Python `pat in s` substring containment on strings. -/
def pyContains (s pat : String) : Bool :=
  containsL s.toList pat.toList

/-- Python `s.startswith(pat)`. -/
def pyStartsWith (s pat : String) : Bool :=
  startsWithL s.toList pat.toList

/-- Python `s.endswith(pat)`. -/
def pyEndsWith (s pat : String) : Bool :=
  startsWithL s.toList.reverse pat.toList.reverse

/-- Python `str.isupper()` (ASCII fragment): at least one cased character and
no lowercase character. -/
def pyIsUpper (s : String) : Bool :=
  s.toList.any (fun c => c.isAlpha) && s.toList.all (fun c => !c.isLower)

/-- Python split with count 1, splitting at the FIRST occurrence of `sep`:
returns the part before and the part after.  When `sep` does not occur the
whole list ends up in the first component (the caller guards on containment). -/
def splitFirstL (sep : Char) : List Char → List Char × List Char
  | [] => ([], [])
  | x :: xs =>
    if x = sep then ([], xs)
    else
      let p := splitFirstL sep xs
      (x :: p.1, p.2)

/-- The two ordered finding lists `self.errors` and `self.warnings` of an
`EnvValidator` instance. -/
structure VState where
  errors : List String
  warnings : List String
deriving Repr, DecidableEq

/-- Python `dict` insertion on an insertion-ordered association list:
overwriting an existing key keeps its position, a new key is appended. -/
def dictInsert {J : Type} (d : List (String × J)) (k : String) (v : J) :
    List (String × J) :=
  match d with
  | [] => [(k, v)]
  | (k', v') :: rest =>
    if k' = k then (k, v) :: rest else (k', v') :: dictInsert rest k v

example : pyStrip "  a b \t" = "a b" := by decide
example : pyStripQuotes "\x22\x22X\x22\x22" = "X" := by decide
example : pyContains "DB_TOKEN" "TOKEN" = true := by decide
example : pyContains "DB_TOKEn" "TOKEN" = false := by decide
example : pyIsUpper "BAR" = true := by decide
example : pyIsUpper "lowercase" = false := by decide
example : splitFirstL '=' "K=a=b".toList = ("K".toList, "a=b".toList) := by decide

/-!
## The `$\x7bVAR\x7d` scanner of `extract_mxcp_config_vars`

Python: `re.findall` with raw pattern dollar, left brace, group of `\w+`,
right brace.  The regex engine scans
left to right; at each position a match requires a dollar sign, a left brace,
a nonempty maximal run of word characters, and a right brace.  On success
scanning resumes after the match, on failure one character further.
The first argument is fuel; it starts at the length of the list and each
step consumes at least one character, so it never runs out.
-/

/-- One scanning pass of `re.findall` for the pattern dollar-brace-word-brace,
capturing the word between the braces. -/
def scanTemplateVarsF : Nat → List Char → List String
  | 0, _ => []
  | _ + 1, [] => []
  | fuel + 1, c :: rest =>
    if c = '$' then
      match rest with
      | '\x7b' :: rest2 =>
        let w := rest2.takeWhile pyIsWordChar
        if w.isEmpty then scanTemplateVarsF fuel rest
        else
          match rest2.drop w.length with
          | '\x7d' :: rest3 => String.mk w :: scanTemplateVarsF fuel rest3
          | _ => scanTemplateVarsF fuel rest
      | _ => scanTemplateVarsF fuel rest
    else scanTemplateVarsF fuel rest

/-- Run `re.findall` for the dollar-brace pattern over a whole string. -/
def scanTemplateVars (content : String) : List String :=
  scanTemplateVarsF content.toList.length content.toList

/-- Embedding of `EnvValidator.extract_mxcp_config_vars`, with the file read abstracted to
its text: find all dollar-brace placeholders, filter template placeholders
(the double-brace and case tests of the source), and take the distinct
survivors.  The Python `list(set(...))` step has unspecified order; we model it as
`List.dedup`, which preserves the set of elements and removes duplicates. -/
def extract_mxcp_config_vars (content : String) : List String :=
  let all_vars := scanTemplateVars content
  (all_vars.filter (fun v =>
    !pyStartsWith v "\x7b\x7b" && !pyEndsWith v "\x7d\x7d" && pyIsUpper v)).dedup

/-- Embedding of `EnvValidator.extract_config_env_vars`, with the file read abstracted to
its list of lines: skip blank and comment lines, split each remaining line
with an equals sign at the first equals sign, strip quotes from the value,
and record the pair with dict semantics (last write wins). -/
def extract_config_env_vars (file_lines : List String) : List (String × String) :=
  file_lines.foldl
    (fun vars rawLine =>
      let line := pyStrip rawLine
      if line ≠ "" && !pyStartsWith line "#" && pyContains line "=" then
        let kv := splitFirstL '=' line.toList
        dictInsert vars (String.mk kv.1) (pyStripQuotes (String.mk kv.2))
      else vars)
    []

/-- Embedding of `EnvValidator.extract_deploy_script_vars`: the source ignores its
`script_path` argument and unconditionally returns `None`, the sentinel for
dynamic discovery (`none` here); it never opens the script file. -/
def extract_deploy_script_vars (script_path : String) : Option (List String) :=
  none

example : scanTemplateVars "foo=$\x7bBAR\x7d baz=$\x7b\x7bnested\x7d\x7d qux=$\x7blowercase\x7d" = ["BAR", "lowercase"] := by decide
example : extract_mxcp_config_vars "foo=$\x7bBAR\x7d baz=$\x7b\x7bnested\x7d\x7d qux=$\x7blowercase\x7d" = ["BAR"] := by decide
example : extract_config_env_vars ["# comment", "FOO=\x22hello\x22", "BAR=world", "FOO=override"] = [("FOO", "override"), ("BAR", "world")] := by decide
example : extract_config_env_vars ["K=\x22\x22X\x22\x22"] = [("K", "X")] := by decide

/-!
## The Docker LABEL scanner of `extract_docker_labels`

Python: `re.findall` with the LABEL pattern of the source: the literal
LABEL, whitespace, env-dot, the phase alternation, dot, a `\w+` group, an
equals sign, and a single-quoted lazily-matched brace-delimited group
(`re.MULTILINE` is
irrelevant since the pattern has no anchors).  At a given position the match
requires the literal LABEL, at least one whitespace character, the literal
env followed by a dot, one of the two phase words followed by a dot, a
nonempty maximal run of word characters, an equals sign, a single quote, and
then the lazily-matched brace-delimited payload closed by a single quote,
whose inner characters may not be newlines.
-/

/-- Consume the exact literal `pat` from the front of `cs`, returning the
remainder, or `none` when `cs` does not start with `pat`. -/
def dropExact : List Char → List Char → Option (List Char)
  | cs, [] => some cs
  | [], _ :: _ => none
  | c :: cs, p :: ps => if c = p then dropExact cs ps else none

/-- Find the end of the lazily-matched label payload: the shortest run of
non-newline characters followed by a closing brace and then a single quote.
Returns the inner run and the remainder after the closing quote. -/
def findPayloadEnd : List Char → Option (List Char × List Char)
  | '\x7d' :: '\x27' :: rest => some ([], rest)
  | c :: rest =>
    if c = '\n' then none
    else (findPayloadEnd rest).map (fun p => (c :: p.1, p.2))
  | [] => none

/-- Try to match the LABEL pattern at the very start of `cs`.  On success
returns the triple of captured groups (phase, variable name, JSON payload
including its braces) and the remainder of the input after the match. -/
def tryLabelMatch (cs : List Char) : Option ((String × String × String) × List Char) := do
  let r1 ← dropExact cs "LABEL".toList
  let sp := r1.takeWhile pyIsSpace
  if sp.isEmpty then none
  else
    let r2 := r1.drop sp.length
    let r3 ← dropExact r2 "env.".toList
    let pr : Option (String × List Char) :=
      match dropExact r3 "runtime".toList with
      | some r => some ("runtime", r)
      | none =>
        match dropExact r3 "cicd".toList with
        | some r => some ("cicd", r)
        | none => none
    let p ← pr
    let r4 ← dropExact p.2 ['.']
    let w := r4.takeWhile pyIsWordChar
    if w.isEmpty then none
    else
      let r5 := r4.drop w.length
      let r6 ← dropExact r5 ['=', '\x27']
      let r7 ← dropExact r6 ['\x7b']
      let pay ← findPayloadEnd r7
      pure ((p.1, String.mk w, String.mk ('\x7b' :: pay.1 ++ ['\x7d'])), pay.2)

/-- One scanning pass of `re.findall` for the LABEL pattern: on a match emit
the captured groups and resume after the match, otherwise advance one
character.  The fuel argument starts at the length of the list; each step
consumes at least one character, so it never runs out. -/
def scanDockerLabelsF : Nat → List Char → List (String × String × String)
  | 0, _ => []
  | _ + 1, [] => []
  | fuel + 1, c :: rest =>
    match tryLabelMatch (c :: rest) with
    | some m => m.1 :: scanDockerLabelsF fuel m.2
    | none => scanDockerLabelsF fuel rest

/-- All LABEL matches of a Dockerfile text, in scanning order. -/
def docker_label_matches (content : String) : List (String × String × String) :=
  scanDockerLabelsF content.toList.length content.toList

/-- The result shape of `extract_docker_labels`: the two label namespaces,
each an insertion-ordered mapping from variable name to parsed JSON value. -/
structure DockerLabels (J : Type) where
  runtime : List (String × J)
  cicd : List (String × J)
deriving Repr, DecidableEq

/-- The `for phase, var_name, json_str in matches` loop of
`extract_docker_labels`: parse each payload, store it under its phase on
success, append one error on parse failure. -/
def extract_docker_labels_loop {J : Type} (json_loads : String → Option J) :
    List (String × String × String) → DockerLabels J → VState →
    DockerLabels J × VState
  | [], labels, s => (labels, s)
  | (phase, var_name, json_str) :: rest, labels, s =>
    match json_loads json_str with
    | some v =>
      let labels' :=
        if phase = "runtime" then
          { labels with runtime := dictInsert labels.runtime var_name v }
        else if phase = "cicd" then
          { labels with cicd := dictInsert labels.cicd var_name v }
        else labels
      extract_docker_labels_loop json_loads rest labels' s
    | none =>
      extract_docker_labels_loop json_loads rest labels
        { s with errors := s.errors ++ ["Invalid JSON in Docker label for " ++ var_name] }

/-- Embedding of `EnvValidator.extract_docker_labels`, with the file read
abstracted to its text and `json.loads` abstracted as `json_loads`. -/
def extract_docker_labels {J : Type} (json_loads : String → Option J)
    (content : String) (s : VState) : DockerLabels J × VState :=
  extract_docker_labels_loop json_loads (docker_label_matches content) ⟨[], []⟩ s

example :
    docker_label_matches
      "FROM x\nLABEL env.runtime.DB_HOST=\x27\x7b\x22type\x22: \x22string\x22\x7d\x27\nLABEL env.cicd.AWS_REGION=\x27\x7bbad\x27"
      = [("runtime", "DB_HOST", "\x7b\x22type\x22: \x22string\x22\x7d")] := by decide
example :
    docker_label_matches "LABEL env.runtime.A=\x27\x7b1\x7d\x27 LABEL env.cicd.B=\x27\x7b2\x7d\x27"
      = [("runtime", "A", "\x7b1\x7d"), ("cicd", "B", "\x7b2\x7d")] := by decide

/-!
## The four validation checks and `validate`

Python membership tests (`in` on a dict iterates keys, `in` on a list scans
elements) are modelled as decidable list membership.  The finding messages
are the exact f-string texts of the source.
-/

/-- Validation 1 of `EnvValidator.validate` (runtime labels vs deploy
script).  When `deploy_vars` is the dynamic-discovery sentinel the check only
prints; otherwise the legacy comparison runs. -/
def check1 {J : Type} (deploy_vars : Option (List String))
    (runtime_labels : List (String × J)) (s : VState) : VState :=
  match deploy_vars with
  | none => s
  | some dv =>
    let s1 := runtime_labels.foldl
      (fun st p =>
        if p.1 ∈ dv then st
        else { st with errors := st.errors ++
          ["Runtime var " ++ p.1 ++ " in Docker labels but not passed by deploy-app-runner.sh"] })
      s
    dv.foldl
      (fun st v =>
        if v ∉ runtime_labels.map Prod.fst ∧
            v ∉ (["MXCP_DATA_ACCESS_KEY_ID", "MXCP_DATA_SECRET_ACCESS_KEY"] : List String) then
          { st with warnings := st.warnings ++
            ["Variable " ++ v ++ " passed to App Runner but not documented in Docker labels"] }
        else st)
      s1

/-- Validation 2 of `EnvValidator.validate` (mxcp-user-config.yml variables
available at runtime).  The second branch is guarded by
`deploy_vars is not None` in the source. -/
def check2 (mxcp_vars runtime_keys : List String)
    (deploy_vars : Option (List String)) (s : VState) : VState :=
  mxcp_vars.foldl
    (fun st v =>
      let st1 :=
        if v ∈ runtime_keys then st
        else { st with errors := st.errors ++
          ["Variable $\x7b" ++ v ++ "\x7d used in mxcp-user-config.yml but not documented as runtime requirement"] }
      match deploy_vars with
      | none => st1
      | some dv =>
        if v ∈ dv then st1
        else { st1 with errors := st1.errors ++
          ["Variable $\x7b" ++ v ++ "\x7d used in mxcp-user-config.yml but not passed by deploy-app-runner.sh"] })
    s

/-- Validation 3 of `EnvValidator.validate` (CI/CD variables documented in
the cicd label namespace). -/
def check3 (workflow_env cicd_keys : List String) (s : VState) : VState :=
  workflow_env.foldl
    (fun st v =>
      if pyStartsWith v "AWS_" || pyEndsWith v "_ACCESS_KEY_ID" ||
          pyEndsWith v "_SECRET_ACCESS_KEY" then
        if v ∈ cicd_keys then st
        else { st with warnings := st.warnings ++
          ["CI/CD variable " ++ v ++ " used in workflow but not documented in Docker labels"] }
      else st)
    s

/-- Validation 4 of `EnvValidator.validate` (config.env variables are
non-sensitive); only the keys are inspected. -/
def check4 (config_env : List (String × String)) (s : VState) : VState :=
  config_env.foldl
    (fun st p =>
      if pyContains p.1 "KEY" || pyContains p.1 "SECRET" || pyContains p.1 "TOKEN" then
        { st with errors := st.errors ++
          ["Potential secret " ++ p.1 ++ " found in config.env.template (should be in GitHub Secrets)"] }
      else st)
    s

/-- The report section at the end of `EnvValidator.validate`: return 0 when
both lists are empty, otherwise 1 exactly when there is at least one error. -/
def report (s : VState) : Nat :=
  if s.errors.isEmpty && s.warnings.isEmpty then 0
  else if !s.errors.isEmpty then 1
  else 0

/-- The file contents `validate` works on.  The source resolves the
mxcp-config and config-env paths with a template fallback and opens fixed
paths for the rest; either way each extraction receives one text, which is
what this record carries (the workflow env block is carried as its key
list, see the module header). -/
structure ValidateInputs where
  dockerfile : String
  deploy_script_path : String
  workflow_env : List String
  mxcp_config : String
  config_env_lines : List String

/-- The observable outcome of one `validate()` run: the returned exit code
and the final contents of the two finding lists. -/
structure ValidateResult where
  exitCode : Nat
  errors : List String
  warnings : List String
deriving Repr, DecidableEq

/-- The finding state reached by `EnvValidator.validate` after the five
extractions and the four checks, starting from a fresh instance. -/
def validateState {J : Type} (json_loads : String → Option J)
    (inp : ValidateInputs) : VState :=
  let dres := extract_docker_labels json_loads inp.dockerfile ⟨[], []⟩
  let docker_labels := dres.1
  let s1 := dres.2
  let deploy_vars := extract_deploy_script_vars inp.deploy_script_path
  let mxcp_vars := extract_mxcp_config_vars inp.mxcp_config
  let config_env := extract_config_env_vars inp.config_env_lines
  let s2 := check1 deploy_vars docker_labels.runtime s1
  let s3 := check2 mxcp_vars (docker_labels.runtime.map Prod.fst) deploy_vars s2
  let s4 := check3 inp.workflow_env (docker_labels.cicd.map Prod.fst) s3
  check4 config_env s4

/-- Embedding of `EnvValidator.validate`: run the five extractions from a
fresh state, run checks 1-4 in order, and report. -/
def validate {J : Type} (json_loads : String → Option J)
    (inp : ValidateInputs) : ValidateResult :=
  let s5 := validateState json_loads inp
  ⟨report s5, s5.errors, s5.warnings⟩

/-- Validation 2 with the deploy-script branch deleted: only the
runtime-requirement comparison remains. -/
def check2_dynamic (mxcp_vars runtime_keys : List String) (s : VState) : VState :=
  mxcp_vars.foldl
    (fun st v =>
      if v ∈ runtime_keys then st
      else { st with errors := st.errors ++
        ["Variable $\x7b" ++ v ++ "\x7d used in mxcp-user-config.yml but not documented as runtime requirement"] })
    s

/-- Embedding of `validate` with the dead code removed: check 1 skipped
entirely and check 2 run without its deploy-script branch. -/
def validate_dynamic {J : Type} (json_loads : String → Option J)
    (inp : ValidateInputs) : ValidateResult :=
  let dres := extract_docker_labels json_loads inp.dockerfile ⟨[], []⟩
  let docker_labels := dres.1
  let s1 := dres.2
  let mxcp_vars := extract_mxcp_config_vars inp.mxcp_config
  let config_env := extract_config_env_vars inp.config_env_lines
  let s3 := check2_dynamic mxcp_vars (docker_labels.runtime.map Prod.fst) s1
  let s4 := check3 inp.workflow_env (docker_labels.cicd.map Prod.fst) s3
  let s5 := check4 config_env s4
  ⟨report s5, s5.errors, s5.warnings⟩

example {J : Type} (json_loads : String → Option J) (inp : ValidateInputs) :
    validate json_loads inp = validate_dynamic json_loads inp := rfl

example :
    validate (fun _ => some ())
      { dockerfile := "LABEL env.runtime.DB_HOST=\x27\x7b\x7d\x27"
        deploy_script_path := ".github/scripts/deploy-app-runner.sh"
        workflow_env := ["AWS_REGION", "PORT"]
        mxcp_config := "host: $\x7bDB_HOST\x7d"
        config_env_lines := ["DB_TOKEN=x"] }
      = { exitCode := 1
          errors := ["Potential secret DB_TOKEN found in config.env.template (should be in GitHub Secrets)"]
          warnings := ["CI/CD variable AWS_REGION used in workflow but not documented in Docker labels"] } := by
  decide

/-!
## Helper lemmas
-/

/-- Rebuilding a state from its two fields is the identity. -/
lemma VState.eta (s : VState) : (⟨s.errors, s.warnings⟩ : VState) = s := rfl

/-- The exit code of `report` is 0 or 1 and is decided by the error list
alone. -/
lemma report_spec (s : VState) :
    (report s = 0 ↔ s.errors = []) ∧ (report s = 1 ↔ s.errors ≠ []) := by
  obtain ⟨errors, warnings⟩ := s
  cases errors <;> cases warnings <;> simp [report]

/-- Full characterization of check 4: the errors gain exactly one message per
key containing one of the three secret substrings, in order, and the
warnings are untouched. -/
lemma check4_spec (l : List (String × String)) (s : VState) :
    check4 l s =
      ⟨s.errors ++
        (l.filter (fun p =>
          pyContains p.1 "KEY" || pyContains p.1 "SECRET" || pyContains p.1 "TOKEN")).map
          (fun p => "Potential secret " ++ p.1 ++ " found in config.env.template (should be in GitHub Secrets)"),
       s.warnings⟩ := by
  induction l generalizing s with
  | nil => simp [check4]
  | cons p rest ih =>
    simp only [check4, List.foldl_cons] at ih ⊢
    by_cases h : (pyContains p.1 "KEY" || pyContains p.1 "SECRET" || pyContains p.1 "TOKEN") = true
    · rw [if_pos h, ih]
      simp [h]
    · rw [if_neg h, ih]
      simp [Bool.not_eq_true] at h
      simp [h]

/-- Full characterization of check 3: the warnings gain exactly one message
per workflow name matching the CI/CD pattern and missing from the cicd keys,
in order, and the errors are untouched. -/
lemma check3_spec (l cicd_keys : List String) (s : VState) :
    check3 l cicd_keys s =
      ⟨s.errors,
       s.warnings ++
        (l.filter (fun v =>
          (pyStartsWith v "AWS_" || pyEndsWith v "_ACCESS_KEY_ID" ||
            pyEndsWith v "_SECRET_ACCESS_KEY") && decide (v ∉ cicd_keys))).map
          (fun v => "CI/CD variable " ++ v ++ " used in workflow but not documented in Docker labels")⟩ := by
  induction l generalizing s with
  | nil => simp [check3]
  | cons v rest ih =>
    simp only [check3, List.foldl_cons] at ih ⊢
    by_cases h : (pyStartsWith v "AWS_" || pyEndsWith v "_ACCESS_KEY_ID" ||
        pyEndsWith v "_SECRET_ACCESS_KEY") = true
    · by_cases hm : v ∈ cicd_keys
      · rw [if_pos h, if_pos hm, ih]
        simp [h, hm]
      · rw [if_pos h, if_neg hm, ih]
        simp [h, hm]
    · rw [if_neg h, ih]
      simp [Bool.not_eq_true] at h
      simp [h]

/-- Key membership after a dict insertion: the inserted key joins the
existing keys. -/
lemma dictInsert_mem {J : Type} (d : List (String × J)) (k : String) (v : J)
    (n : String) :
    (∃ w, (n, w) ∈ dictInsert d k v) ↔ (∃ w, (n, w) ∈ d) ∨ n = k := by
  induction d with
  | nil => simp [dictInsert, eq_comm]
  | cons p rest ih =>
    obtain ⟨k', v'⟩ := p
    by_cases hk : k' = k
    · subst hk
      have hd : dictInsert ((k', v') :: rest) k' v = (k', v) :: rest := by
        simp [dictInsert]
      rw [hd]
      simp only [List.mem_cons, Prod.mk.injEq]
      constructor
      · rintro ⟨w, ⟨hn, -⟩ | hw⟩
        · exact Or.inr hn
        · exact Or.inl ⟨w, Or.inr hw⟩
      · rintro (⟨w, ⟨hn, -⟩ | hw⟩ | hn)
        · exact ⟨v, Or.inl ⟨hn, rfl⟩⟩
        · exact ⟨w, Or.inr hw⟩
        · exact ⟨v, Or.inl ⟨hn, rfl⟩⟩
    · simp only [dictInsert, if_neg hk]
      simp only [List.mem_cons, Prod.mk.injEq]
      constructor
      · rintro ⟨w, hw | hw⟩
        · exact Or.inl ⟨w, Or.inl (by tauto)⟩
        · rcases ih.mp ⟨w, hw⟩ with ⟨w', hw'⟩ | h
          · exact Or.inl ⟨w', Or.inr hw'⟩
          · exact Or.inr h
      · rintro (⟨w, hw | hw⟩ | h)
        · exact ⟨w, Or.inl (by tauto)⟩
        · rcases ih.mpr (Or.inl ⟨w, hw⟩) with ⟨w', hw'⟩
          exact ⟨w', Or.inr hw'⟩
        · rcases ih.mpr (Or.inr h) with ⟨w', hw'⟩
          exact ⟨w', Or.inr hw'⟩

/-- Full characterization of the label-extraction loop: one error per
malformed payload in match order, warnings untouched, and a name is present
in a phase mapping exactly when it was already there or some match of that
phase with a well-formed payload carries it. -/
lemma extract_docker_labels_loop_spec {J : Type} (json_loads : String → Option J)
    (ms : List (String × String × String)) (labels : DockerLabels J) (s : VState) :
    (extract_docker_labels_loop json_loads ms labels s).2 =
      ⟨s.errors ++
        (ms.filter (fun m => (json_loads m.2.2).isNone)).map
          (fun m => "Invalid JSON in Docker label for " ++ m.2.1),
       s.warnings⟩
    ∧ (∀ n, (∃ w, (n, w) ∈ (extract_docker_labels_loop json_loads ms labels s).1.runtime) ↔
        ((∃ w, (n, w) ∈ labels.runtime) ∨
          ∃ j, ("runtime", n, j) ∈ ms ∧ (json_loads j).isSome))
    ∧ (∀ n, (∃ w, (n, w) ∈ (extract_docker_labels_loop json_loads ms labels s).1.cicd) ↔
        ((∃ w, (n, w) ∈ labels.cicd) ∨
          ∃ j, ("cicd", n, j) ∈ ms ∧ (json_loads j).isSome)) := by
  induction ms generalizing labels s with
  | nil => simp [extract_docker_labels_loop]
  | cons m rest ih =>
    obtain ⟨ph, nm, js⟩ := m
    cases hjs : json_loads js with
    | some v =>
      simp only [extract_docker_labels_loop, hjs]
      by_cases hr : ph = "runtime"
      · subst hr
        rw [if_pos rfl]
        refine ⟨?_, ?_, ?_⟩
        · rw [(ih _ _).1]
          simp [hjs]
        · intro n
          rw [(ih _ _).2.1 n]
          simp only [dictInsert_mem, List.mem_cons, Prod.mk.injEq]
          constructor
          · rintro ((h | h) | h)
            · exact Or.inl h
            · exact Or.inr ⟨js, by simp [hjs, h]⟩
            · obtain ⟨j, hj, hsome⟩ := h
              exact Or.inr ⟨j, Or.inr hj, hsome⟩
          · rintro (h | ⟨j, hj | hj, hsome⟩)
            · exact Or.inl (Or.inl h)
            · exact Or.inl (Or.inr hj.2.1)
            · exact Or.inr ⟨j, hj, hsome⟩
        · intro n
          rw [(ih _ _).2.2 n]
          simp only [List.mem_cons, Prod.mk.injEq]
          constructor
          · rintro (h | ⟨j, hj, hsome⟩)
            · exact Or.inl h
            · exact Or.inr ⟨j, Or.inr hj, hsome⟩
          · rintro (h | ⟨j, hj | hj, hsome⟩)
            · exact Or.inl h
            · exact absurd hj.1 (by decide)
            · exact Or.inr ⟨j, hj, hsome⟩
      · rw [if_neg hr]
        by_cases hc : ph = "cicd"
        · subst hc
          rw [if_pos rfl]
          refine ⟨?_, ?_, ?_⟩
          · rw [(ih _ _).1]
            simp [hjs]
          · intro n
            rw [(ih _ _).2.1 n]
            simp only [List.mem_cons, Prod.mk.injEq]
            constructor
            · rintro (h | ⟨j, hj, hsome⟩)
              · exact Or.inl h
              · exact Or.inr ⟨j, Or.inr hj, hsome⟩
            · rintro (h | ⟨j, hj | hj, hsome⟩)
              · exact Or.inl h
              · exact absurd hj.1 (by decide)
              · exact Or.inr ⟨j, hj, hsome⟩
          · intro n
            rw [(ih _ _).2.2 n]
            simp only [dictInsert_mem, List.mem_cons, Prod.mk.injEq]
            constructor
            · rintro ((h | h) | h)
              · exact Or.inl h
              · exact Or.inr ⟨js, by simp [hjs, h]⟩
              · obtain ⟨j, hj, hsome⟩ := h
                exact Or.inr ⟨j, Or.inr hj, hsome⟩
            · rintro (h | ⟨j, hj | hj, hsome⟩)
              · exact Or.inl (Or.inl h)
              · exact Or.inl (Or.inr hj.2.1)
              · exact Or.inr ⟨j, hj, hsome⟩
        · rw [if_neg hc]
          refine ⟨?_, ?_, ?_⟩
          · rw [(ih _ _).1]
            simp [hjs]
          · intro n
            rw [(ih _ _).2.1 n]
            simp only [List.mem_cons, Prod.mk.injEq]
            constructor
            · rintro (h | ⟨j, hj, hsome⟩)
              · exact Or.inl h
              · exact Or.inr ⟨j, Or.inr hj, hsome⟩
            · rintro (h | ⟨j, hj | hj, hsome⟩)
              · exact Or.inl h
              · exact absurd hj.1.symm hr
              · exact Or.inr ⟨j, hj, hsome⟩
          · intro n
            rw [(ih _ _).2.2 n]
            simp only [List.mem_cons, Prod.mk.injEq]
            constructor
            · rintro (h | ⟨j, hj, hsome⟩)
              · exact Or.inl h
              · exact Or.inr ⟨j, Or.inr hj, hsome⟩
            · rintro (h | ⟨j, hj | hj, hsome⟩)
              · exact Or.inl h
              · exact absurd hj.1.symm hc
              · exact Or.inr ⟨j, hj, hsome⟩
    | none =>
      simp only [extract_docker_labels_loop, hjs]
      refine ⟨?_, ?_, ?_⟩
      · rw [(ih _ _).1]
        simp [hjs]
      · intro n
        rw [(ih _ _).2.1 n]
        simp only [List.mem_cons, Prod.mk.injEq]
        constructor
        · rintro (h | ⟨j, hj, hsome⟩)
          · exact Or.inl h
          · exact Or.inr ⟨j, Or.inr hj, hsome⟩
        · rintro (h | ⟨j, hj | hj, hsome⟩)
          · exact Or.inl h
          · rw [hj.2.2] at hsome
            rw [hjs] at hsome
            exact absurd hsome (by simp)
          · exact Or.inr ⟨j, hj, hsome⟩
      · intro n
        rw [(ih _ _).2.2 n]
        simp only [List.mem_cons, Prod.mk.injEq]
        constructor
        · rintro (h | ⟨j, hj, hsome⟩)
          · exact Or.inl h
          · exact Or.inr ⟨j, Or.inr hj, hsome⟩
        · rintro (h | ⟨j, hj | hj, hsome⟩)
          · exact Or.inl h
          · rw [hj.2.2] at hsome
            rw [hjs] at hsome
            exact absurd hsome (by simp)
          · exact Or.inr ⟨j, hj, hsome⟩

/-- Folding a step function that only appends findings only appends
findings. -/
lemma foldl_mono {α : Type} (f : VState → α → VState)
    (hf : ∀ st a, ∃ e w, f st a = ⟨st.errors ++ e, st.warnings ++ w⟩) :
    ∀ (l : List α) (s : VState), ∃ e w, l.foldl f s = ⟨s.errors ++ e, s.warnings ++ w⟩ := by
  intro l
  induction l with
  | nil => exact fun s => ⟨[], [], by simp⟩
  | cons a rest ih =>
    intro s
    obtain ⟨e1, w1, h1⟩ := hf s a
    obtain ⟨e2, w2, h2⟩ := ih (f s a)
    exact ⟨e1 ++ e2, w1 ++ w2, by rw [List.foldl_cons, h2, h1]; simp⟩

/-- Check 1 only appends findings. -/
lemma check1_mono {J : Type} (dv : Option (List String))
    (rl : List (String × J)) (s : VState) :
    ∃ e w, check1 dv rl s = ⟨s.errors ++ e, s.warnings ++ w⟩ := by
  cases dv with
  | none => exact ⟨[], [], by simp [check1]⟩
  | some l =>
    obtain ⟨e1, w1, h1⟩ := foldl_mono
      (fun st (p : String × J) =>
        if p.1 ∈ l then st
        else { st with errors := st.errors ++
          ["Runtime var " ++ p.1 ++ " in Docker labels but not passed by deploy-app-runner.sh"] })
      (by
        intro st p
        by_cases h : p.1 ∈ l
        · exact ⟨[], [], by dsimp only; rw [if_pos h]; simp⟩
        · exact ⟨["Runtime var " ++ p.1 ++ " in Docker labels but not passed by deploy-app-runner.sh"],
            [], by dsimp only; rw [if_neg h]; simp⟩)
      rl s
    obtain ⟨e2, w2, h2⟩ := foldl_mono
      (fun st v =>
        if v ∉ rl.map Prod.fst ∧
            v ∉ (["MXCP_DATA_ACCESS_KEY_ID", "MXCP_DATA_SECRET_ACCESS_KEY"] : List String) then
          { st with warnings := st.warnings ++
            ["Variable " ++ v ++ " passed to App Runner but not documented in Docker labels"] }
        else st)
      (by
        intro st v
        by_cases h : v ∉ rl.map Prod.fst ∧
            v ∉ (["MXCP_DATA_ACCESS_KEY_ID", "MXCP_DATA_SECRET_ACCESS_KEY"] : List String)
        · exact ⟨[], ["Variable " ++ v ++ " passed to App Runner but not documented in Docker labels"],
            by dsimp only; rw [if_pos h]; simp⟩
        · exact ⟨[], [], by dsimp only; rw [if_neg h]; simp⟩)
      l (rl.foldl
        (fun st (p : String × J) =>
          if p.1 ∈ l then st
          else { st with errors := st.errors ++
            ["Runtime var " ++ p.1 ++ " in Docker labels but not passed by deploy-app-runner.sh"] })
        s)
    refine ⟨e1 ++ e2, w1 ++ w2, ?_⟩
    simp only [check1]
    rw [h2, h1]
    simp

/-- Folding a step function that only appends errors only appends errors and
leaves the warnings unchanged. -/
lemma foldl_mono_errors {α : Type} (f : VState → α → VState)
    (hf : ∀ st a, ∃ e, f st a = ⟨st.errors ++ e, st.warnings⟩) :
    ∀ (l : List α) (s : VState), ∃ e, l.foldl f s = ⟨s.errors ++ e, s.warnings⟩ := by
  intro l
  induction l with
  | nil => exact fun s => ⟨[], by simp⟩
  | cons a rest ih =>
    intro s
    obtain ⟨e1, h1⟩ := hf s a
    obtain ⟨e2, h2⟩ := ih (f s a)
    exact ⟨e1 ++ e2, by rw [List.foldl_cons, h2, h1]; simp⟩

/-- Check 2 only appends findings (and touches only the errors). -/
lemma check2_mono (mv rk : List String) (dv : Option (List String)) (s : VState) :
    ∃ e, check2 mv rk dv s = ⟨s.errors ++ e, s.warnings⟩ := by
  have h := foldl_mono_errors
    (fun st v =>
      let st1 :=
        if v ∈ rk then st
        else { st with errors := st.errors ++
          ["Variable $\x7b" ++ v ++ "\x7d used in mxcp-user-config.yml but not documented as runtime requirement"] }
      match dv with
      | none => st1
      | some l =>
        if v ∈ l then st1
        else { st1 with errors := st1.errors ++
          ["Variable $\x7b" ++ v ++ "\x7d used in mxcp-user-config.yml but not passed by deploy-app-runner.sh"] })
    (by
      intro st v
      dsimp only
      cases dv with
      | none =>
        by_cases h : v ∈ rk
        · exact ⟨[], by simp [h]⟩
        · exact ⟨["Variable $\x7b" ++ v ++ "\x7d used in mxcp-user-config.yml but not documented as runtime requirement"], by simp [h]⟩
      | some l =>
        dsimp only
        by_cases h : v ∈ rk <;> by_cases h2 : v ∈ l
        · exact ⟨[], by simp [h, h2]⟩
        · exact ⟨["Variable $\x7b" ++ v ++ "\x7d used in mxcp-user-config.yml but not passed by deploy-app-runner.sh"], by simp [h, h2]⟩
        · exact ⟨["Variable $\x7b" ++ v ++ "\x7d used in mxcp-user-config.yml but not documented as runtime requirement"], by simp [h, h2]⟩
        · exact ⟨["Variable $\x7b" ++ v ++ "\x7d used in mxcp-user-config.yml but not documented as runtime requirement", "Variable $\x7b" ++ v ++ "\x7d used in mxcp-user-config.yml but not passed by deploy-app-runner.sh"], by simp [h, h2]⟩)
    mv s
  simpa only [check2] using h

/-- Unfolding toList over string append. -/
lemma toList_append (a b : String) : (a ++ b).toList = a.toList ++ b.toList :=
  String.data_append a b

/-- Rebuilding a string from its character list is the identity. -/
lemma String_mk_toList (s : String) : String.mk s.toList = s := rfl

/-- Containment of a one-character pattern is list membership. -/
lemma containsL_single (xs : List Char) (c : Char) :
    containsL xs [c] = true ↔ c ∈ xs := by
  induction xs with
  | nil => simp [containsL, startsWithL]
  | cons x rest ih =>
    simp only [containsL, startsWithL, List.mem_cons, Bool.or_eq_true,
      Bool.and_eq_true, decide_eq_true_eq]
    constructor
    · rintro (⟨h, -⟩ | h)
      · exact Or.inl h.symm
      · exact Or.inr (ih.mp h)
    · rintro (h | h)
      · exact Or.inl ⟨h.symm, trivial⟩
      · exact Or.inr (ih.mpr h)

/-- Splitting at the first separator when the prefix is separator-free. -/
lemma splitFirstL_append (c : Char) (xs ys : List Char) (h : c ∉ xs) :
    splitFirstL c (xs ++ c :: ys) = (xs, ys) := by
  induction xs with
  | nil => simp [splitFirstL]
  | cons x rest ih =>
    simp only [List.cons_append, splitFirstL]
    have hx : ¬x = c := fun hxc => h (hxc ▸ List.mem_cons_self x rest)
    rw [if_neg hx]
    have hr := ih (fun hc => h (List.mem_cons_of_mem x hc))
    rw [show rest.append (c :: ys) = rest ++ c :: ys from rfl, hr]

/-!
## Claim theorems
-/

/-- C1: for every run, `validate()` returns exit code 0 if and only if the
error list is empty after all four checks have run, and returns 1 exactly
when at least one error was recorded; since the code is decided by the error
list alone, the number of warnings never affects it. -/
theorem validate_exit_code_zero_iff_no_errors {J : Type}
    (json_loads : String → Option J) (inp : ValidateInputs) :
    ((validate json_loads inp).exitCode = 0 ↔ (validate json_loads inp).errors = [])
    ∧ ((validate json_loads inp).exitCode = 1 ↔ (validate json_loads inp).errors ≠ []) :=
  report_spec (validateState json_loads inp)

/-- C1 witness: a run with one warning and no error still exits 0. -/
theorem validate_exit_code_zero_iff_no_errors_witness :
    (validate (fun _ => some ())
      { dockerfile := ""
        deploy_script_path := ".github/scripts/deploy-app-runner.sh"
        workflow_env := ["AWS_REGION"]
        mxcp_config := ""
        config_env_lines := [] }).exitCode = 0 := by
  have h := validate_exit_code_zero_iff_no_errors (fun _ => some ())
    { dockerfile := ""
      deploy_script_path := ".github/scripts/deploy-app-runner.sh"
      workflow_env := ["AWS_REGION"]
      mxcp_config := ""
      config_env_lines := [] }
  exact h.1.mpr (by decide)

/-- C2 counterexample: on a script text that does contain a static loop
header `for var in DB_HOST API_KEY; do`, the extractor still returns the
dynamic-discovery sentinel rather than the ordered name sequence, refuting
the claimed static-list mode. -/
theorem deploy_script_static_loop_counterexample :
    extract_deploy_script_vars "for var in DB_HOST API_KEY; do\n  echo pass\ndone" = none
    ∧ extract_deploy_script_vars "for var in DB_HOST API_KEY; do\n  echo pass\ndone"
        ≠ some ["DB_HOST", "API_KEY"] :=
  ⟨rfl, by decide⟩

/-- C2 (amended): the deploy-script variable extractor returns the
dynamic-discovery sentinel for every input, whether or not the script
contains a static `for var in ...; do` enumeration; no static-list mode
exists in the code. -/
theorem extract_deploy_script_vars_always_dynamic (script_path : String) :
    extract_deploy_script_vars script_path = none :=
  rfl

/-- C3 counterexample: the parser strips EVERY leading and trailing double
quote from the value, not one layer: a value written with doubled quotes
around X comes back as bare X (not as X with one quote layer retained), and
a quote on only one side is removed too. -/
theorem config_env_quote_strip_counterexample :
    extract_config_env_vars ["K=\x22\x22X\x22\x22"] = [("K", "X")]
    ∧ extract_config_env_vars ["K=\x22\x22X\x22\x22"] ≠ [("K", "\x22X\x22")]
    ∧ extract_config_env_vars ["L=\x22Y"] = [("L", "Y")] :=
  ⟨by decide, by decide, by decide⟩

/-- C3 (amended): for every non-comment line `k=v` (no whitespace padding,
key containing no equals sign), the parser records the key mapped to the
value with ALL leading and trailing double-quote characters removed — the
semantics of Python str.strip with a quote argument — including unbalanced
quotes on a single side. -/
theorem config_env_value_strips_all_quotes (k v : String)
    (h1 : pyContains k "=" = false)
    (h2 : pyStrip (k ++ "=" ++ v) = k ++ "=" ++ v)
    (h3 : pyStartsWith (k ++ "=" ++ v) "#" = false) :
    extract_config_env_vars [k ++ "=" ++ v] = [(k, pyStripQuotes v)] := by
  have htl : (k ++ "=" ++ v).toList = k.toList ++ '=' :: v.toList := by
    rw [toList_append, toList_append]
    simp
  have hmem : '=' ∉ k.toList := by
    intro hc
    rw [show pyContains k "=" = containsL k.toList ['='] from rfl,
      (containsL_single k.toList '=').mpr hc] at h1
    exact Bool.true_eq_false.mp h1
  have hcont : pyContains (k ++ "=" ++ v) "=" = true := by
    rw [show pyContains (k ++ "=" ++ v) "=" = containsL (k ++ "=" ++ v).toList ['='] from rfl, htl]
    exact (containsL_single _ '=').mpr (by simp)
  have hne : ¬(k ++ "=" ++ v) = "" := by
    intro he
    have h0 := congrArg String.toList he
    rw [htl] at h0
    simp at h0
  simp only [extract_config_env_vars, List.foldl_cons, List.foldl_nil]
  rw [h2, if_pos (by simp [hne, h3, hcont])]
  rw [htl, splitFirstL_append '=' _ _ hmem]
  simp only [dictInsert, String_mk_toList]

/-- C3 witness: the amended theorem applied to the concrete line
FOO=(quote)(quote)hello(quote)(quote). -/
theorem config_env_value_strips_all_quotes_witness :
    pyContains "FOO" "=" = false
    ∧ pyStrip ("FOO" ++ "=" ++ "\x22\x22hello\x22\x22") = "FOO" ++ "=" ++ "\x22\x22hello\x22\x22"
    ∧ pyStartsWith ("FOO" ++ "=" ++ "\x22\x22hello\x22\x22") "#" = false
    ∧ extract_config_env_vars ["FOO" ++ "=" ++ "\x22\x22hello\x22\x22"] =
        [("FOO", pyStripQuotes "\x22\x22hello\x22\x22")] :=
  ⟨by decide, by decide, by decide,
    config_env_value_strips_all_quotes "FOO" "\x22\x22hello\x22\x22"
      (by decide) (by decide) (by decide)⟩

/-- C4: every Docker label match whose JSON payload fails to parse is
omitted from the returned mapping and contributes exactly one error naming
its variable (one message per malformed match, in match order, warnings
untouched), while extraction continues: a name is present in a phase mapping
precisely when some match of that phase has a well-formed payload. -/
theorem docker_label_malformed_json_isolated {J : Type}
    (json_loads : String → Option J) (content : String) (s : VState) :
    ((extract_docker_labels json_loads content s).2 =
      ⟨s.errors ++
        ((docker_label_matches content).filter
          (fun m => (json_loads m.2.2).isNone)).map
          (fun m => "Invalid JSON in Docker label for " ++ m.2.1),
        s.warnings⟩)
    ∧ (∀ n, (∃ w, (n, w) ∈ (extract_docker_labels json_loads content s).1.runtime) ↔
        ∃ j, ("runtime", n, j) ∈ docker_label_matches content ∧ (json_loads j).isSome)
    ∧ (∀ n, (∃ w, (n, w) ∈ (extract_docker_labels json_loads content s).1.cicd) ↔
        ∃ j, ("cicd", n, j) ∈ docker_label_matches content ∧ (json_loads j).isSome) := by
  obtain ⟨h1, h2, h3⟩ :=
    extract_docker_labels_loop_spec json_loads (docker_label_matches content) ⟨[], []⟩ s
  refine ⟨h1, fun n => ?_, fun n => ?_⟩
  · simp only [extract_docker_labels]
    rw [h2 n]
    simp
  · simp only [extract_docker_labels]
    rw [h3 n]
    simp

/-- C5: with placeholder filtering enabled, the template-reference extractor
returns exactly the distinct placeholder names passing the double-brace and
upper-case filters, and on the specific probe input it returns only BAR. -/
theorem mxcp_config_vars_filtering :
    (∀ (content v : String),
        v ∈ extract_mxcp_config_vars content ↔
          (v ∈ scanTemplateVars content ∧ pyStartsWith v "\x7b\x7b" = false ∧
            pyEndsWith v "\x7d\x7d" = false ∧ pyIsUpper v = true))
    ∧ (∀ content : String, (extract_mxcp_config_vars content).Nodup)
    ∧ extract_mxcp_config_vars
        "foo=$\x7bBAR\x7d baz=$\x7b\x7bnested\x7d\x7d qux=$\x7blowercase\x7d" = ["BAR"] := by
  refine ⟨?_, ?_, by decide⟩
  · intro content v
    simp only [extract_mxcp_config_vars, List.mem_dedup, List.mem_filter,
      Bool.and_eq_true, Bool.not_eq_true']
    tauto
  · intro content
    exact List.nodup_dedup _

/-- C6: check 4 appends exactly one error per config-env name containing
KEY, SECRET or TOKEN as a case-sensitive substring (only keys are inspected,
warnings untouched), and the singleton DB_TOKEN mapping yields exactly one
error flagging it as a potential secret. -/
theorem check4_secret_name_detection (config_env : List (String × String)) (s : VState) :
    check4 config_env s =
      ⟨s.errors ++
        (config_env.filter (fun p =>
          pyContains p.1 "KEY" || pyContains p.1 "SECRET" || pyContains p.1 "TOKEN")).map
          (fun p => "Potential secret " ++ p.1 ++ " found in config.env.template (should be in GitHub Secrets)"),
        s.warnings⟩
    ∧ check4 [("DB_TOKEN", "x")] ⟨[], []⟩ =
        ⟨["Potential secret DB_TOKEN found in config.env.template (should be in GitHub Secrets)"], []⟩ :=
  ⟨check4_spec config_env s, by decide⟩

/-- C7: check 3 never records an error and records exactly one warning per
workflow name that matches the AWS prefix or one of the two credential
suffixes while being absent from the cicd label keys; non-matching names
produce no finding even when absent. -/
theorem check3_cicd_warning_exactly (workflow_env cicd_keys : List String) (s : VState) :
    check3 workflow_env cicd_keys s =
      ⟨s.errors,
        s.warnings ++
          (workflow_env.filter (fun v =>
            (pyStartsWith v "AWS_" || pyEndsWith v "_ACCESS_KEY_ID" ||
              pyEndsWith v "_SECRET_ACCESS_KEY") && decide (v ∉ cicd_keys))).map
            (fun v => "CI/CD variable " ++ v ++ " used in workflow but not documented in Docker labels")⟩ :=
  check3_spec workflow_env cicd_keys s

/-- C8: parsing the four-line probe config file skips the comment, keeps the
insertion order, and lets the later FOO assignment overwrite the earlier one
without an error. -/
theorem config_env_parse_example :
    extract_config_env_vars ["# comment", "FOO=\x22hello\x22", "BAR=world", "FOO=override"] =
      [("FOO", "override"), ("BAR", "world")] := by
  decide

/-- C9: every stage of a `validate()` run (label extraction and the four
checks) only appends to the two finding sequences: the prior errors and
warnings are always a prefix of the later ones, so nothing is ever removed
or reordered. -/
theorem findings_append_only {J : Type} (json_loads : String → Option J) :
    (∀ (content : String) (s : VState), ∃ e,
        (extract_docker_labels json_loads content s).2 = ⟨s.errors ++ e, s.warnings⟩)
    ∧ (∀ (dv : Option (List String)) (rl : List (String × J)) (s : VState), ∃ e w,
        check1 dv rl s = ⟨s.errors ++ e, s.warnings ++ w⟩)
    ∧ (∀ (mv rk : List String) (dv : Option (List String)) (s : VState), ∃ e,
        check2 mv rk dv s = ⟨s.errors ++ e, s.warnings⟩)
    ∧ (∀ (wf ck : List String) (s : VState), ∃ w,
        check3 wf ck s = ⟨s.errors, s.warnings ++ w⟩)
    ∧ (∀ (ce : List (String × String)) (s : VState), ∃ e,
        check4 ce s = ⟨s.errors ++ e, s.warnings⟩) := by
  refine ⟨?_, check1_mono, check2_mono, ?_, ?_⟩
  · intro content s
    exact ⟨_, (extract_docker_labels_loop_spec json_loads (docker_label_matches content) ⟨[], []⟩ s).1⟩
  · intro wf ck s
    exact ⟨_, check3_spec wf ck s⟩
  · intro ce s
    exact ⟨_, check4_spec ce s⟩

/-- C10: the deploy-script extractor returns the dynamic sentinel for every
path (it never reads the script), check 1 therefore records nothing, and the
whole of `validate` computes the same function as the variant with check 1
and the deploy-script branch of check 2 deleted: those branches are dead
code. -/
theorem deploy_script_dynamic_dead_code {J : Type}
    (json_loads : String → Option J) (inp : ValidateInputs) (p : String) :
    extract_deploy_script_vars p = none
    ∧ (∀ (rl : List (String × J)) (s : VState),
        check1 (extract_deploy_script_vars p) rl s = s)
    ∧ validate json_loads inp = validate_dynamic json_loads inp :=
  ⟨rfl, fun _ _ => rfl, rfl⟩
